import Mathlib

/-!
Verification of the hifi entity-store and edit-packet-sender core.

This file shallowly embeds `ModelTreeElement` (libraries/models/src/ModelTreeElement.cpp)
and `OctreeEditPacketSender` (libraries/octree/src/OctreeEditPacketSender.cpp) and
proves or refutes the spec's claims about them.  Machine integers are modelled as
`Nat`/`Int` with explicit `% 2^w` where wraparound matters; byte buffers are
`List Nat` (one `Nat` per byte, little-endian multi-byte fields as on the
target platform).  External collaborators (glm/AABox geometry, `ModelItem`'s
per-item simulation step, the packet-header codec, jurisdiction maps) are
passed in as parameters, so every theorem holds for all of their behaviours
unless a definition is explicitly marked as modelled from the spec.
-/

/-- A 3-D position.  The geometric claims in this file depend only on the
comparison structure of distances and on an abstract containment test, so an
integer triple is a faithful carrier. -/
abbrev Pos := Int × Int × Int

/-- Squared Euclidean distance; comparisons of (non-negative) distances agree
with comparisons of squared distances, which is all `getClosestModel` uses. -/
def distSq (a b : Pos) : Nat :=
  ((a.1 - b.1) ^ 2 + (a.2.1 - b.2.1) ^ 2 + (a.2.2 - b.2.2) ^ 2).toNat

/-- `ModelItem`: the entity record.  `properties` stands for the arbitrary
mutable property set. -/
structure ModelItem where
  id : Nat
  lastEdited : Nat
  lastUpdated : Nat
  position : Pos
  shouldDie : Bool
  properties : Nat
  deriving Repr, DecidableEq

/-- Modelled from the spec: `ModelItem::copyChangedProperties` is not among the
source files; §4.1 states that on overwrite the store copies all incoming
properties onto the local entity, so the merged entity is the incoming one. -/
def copyChangedProperties (_localModel incoming : ModelItem) : ModelItem :=
  incoming

/-- The per-entity merge step of `ModelTreeElement::updateModel` (lines
129-149): overwrite when the local entity was edited earlier OR updated
earlier than the incoming one, otherwise keep the local entity. -/
def mergeModel (thisModel incoming : ModelItem) : ModelItem :=
  if thisModel.lastEdited < incoming.lastEdited ∨ thisModel.lastUpdated < incoming.lastUpdated then
    copyChangedProperties thisModel incoming
  else
    thisModel

/-- `ModelTreeElement::updateModel(const ModelItem&)` (lines 120-154): scan the
element's item list for the first entity with the incoming ID; merge in place
and return `true`, or return `false` leaving the list unchanged. -/
def updateModel : List ModelItem → ModelItem → List ModelItem × Bool
  | [], _ => ([], false)
  | thisModel :: rest, incoming =>
    if thisModel.id = incoming.id then
      (mergeModel thisModel incoming :: rest, true)
    else
      let r := updateModel rest incoming
      (thisModel :: r.1, r.2)

/-- The stored list after an `updateModel` call (the side effect that the
algebraic claims quantify over). -/
def applyUpdate (items : List ModelItem) (incoming : ModelItem) : List ModelItem :=
  (updateModel items incoming).1

/-- The removal test of `ModelTreeElement::update` (line 81): the (already
stepped) entity wants to die or has left the element's box. -/
def wantsOut (inBox : Pos → Bool) (m : ModelItem) : Bool :=
  m.shouldDie || !(inBox m.position)

/-- `ModelTreeElement::update` (lines 69-94): step every contained entity with
the simulation function `upd` (standing for `ModelItem::update`), erase the
ones that want to die or left the box `inBox` (standing for
`_box.contains`), appending them to the caller's `args._movingModels` list.
Returns (remaining items, movingModels after the call). -/
def elementUpdate (upd : ModelItem → ModelItem) (inBox : Pos → Bool) :
    List ModelItem → List ModelItem → List ModelItem × List ModelItem
  | [], moving => ([], moving)
  | m :: rest, moving =>
    let m' := upd m
    if wantsOut inBox m' then
      elementUpdate upd inBox rest (moving ++ [m'])
    else
      let r := elementUpdate upd inBox rest moving
      (m' :: r.1, r.2)

/-- `ModelTreeElement::getClosestModel` (lines 213-224).  `closestModelDistance`
starts at `FLT_MAX` (modelled by `⊤`) and — exactly as in the source — is
never updated inside the loop. -/
def getClosestModel (items : List ModelItem) (position : Pos) : Option ModelItem :=
  (items.foldl
    (fun (acc : Option ModelItem × WithTop Nat) m =>
      if (distSq position m.position : WithTop Nat) < acc.2 then (some m, acc.2) else acc)
    (none, ⊤)).1

section Decode

/-- Little-endian 16-bit read of `numberOfModels` (line 291). -/
def readU16 (data : List Nat) : Nat :=
  data.headD 0 % 256 + 256 * ((data.drop 1).headD 0 % 256)

variable (readModel : List Nat → Int → Nat)

/-- The entity-decoding loop of `ModelTreeElement::readElementDataFromBuffer`
(lines 297-304): iterate exactly `numberOfModels` times, each time consuming
`readModel dataAt bytesLeftToRead` bytes (standing for
`ModelItem::readModelDataFromBuffer`), with no per-iteration bounds check.
Returns the bytes consumed by the loop. -/
def readLoopBytes : Nat → List Nat → Int → Nat
  | 0, _, _ => 0
  | k + 1, dataAt, bytesLeftToRead =>
    let c := readModel dataAt bytesLeftToRead
    c + readLoopBytes k (dataAt.drop c) (bytesLeftToRead - c)

/-- `ModelTreeElement::readElementDataFromBuffer` (lines 281-309): read the
16-bit count only when at least two bytes remain; run the decoding loop only
when the remaining bytes cover `numberOfModels * expectedBytesPerModel` in
aggregate; return (bytes read, number of entities decoded and stored). -/
def readElementDataFromBuffer (expectedBytesPerModel : Nat) (data : List Nat)
    (bytesLeftToRead : Int) : Int × Nat :=
  if 2 ≤ bytesLeftToRead then
    let numberOfModels := readU16 data
    let bytesLeft := bytesLeftToRead - 2
    if (numberOfModels * expectedBytesPerModel : Nat) ≤ bytesLeft then
      ((2 : Int) + readLoopBytes readModel numberOfModels (data.drop 2) bytesLeft,
        numberOfModels)
    else
      (2, 0)
  else
    (0, 0)

/-- Modelled from the spec (§4.1 serialization): the decode contract as the
spec words it — read the count, then decode entities one at a time while
accounting bytes consumed, stopping before any entity that would overrun
`remaining_bytes`.  Used only to compare against the source's
`readElementDataFromBuffer`. -/
def specDecodeLoop : Nat → List Nat → Int → Int × Nat
  | 0, _, _ => (0, 0)
  | k + 1, dataAt, bytesLeft =>
    let c := readModel dataAt bytesLeft
    if (c : Int) ≤ bytesLeft then
      let r := specDecodeLoop k (dataAt.drop c) (bytesLeft - c)
      ((c : Int) + r.1, 1 + r.2)
    else
      (0, 0)

/-- Modelled from the spec (§4.1 serialization): whole-buffer decode per the
spec's words, for comparison with `readElementDataFromBuffer`. -/
def specDecode (data : List Nat) (bytesLeftToRead : Int) : Int × Nat :=
  if 2 ≤ bytesLeftToRead then
    let numberOfModels := readU16 data
    let r := specDecodeLoop readModel numberOfModels (data.drop 2) (bytesLeftToRead - 2)
    (2 + r.1, r.2)
  else
    (0, 0)

end Decode

/-! ## OctreeEditPacketSender -/

/-- Little-endian byte image of `n`, `w` bytes wide (memcpy of a fixed-width
unsigned integer on the little-endian target): wraps modulo `2^(8*w)`. -/
def natToBytesLE : Nat → Nat → List Nat
  | 0, _ => []
  | w + 1, n => n % 256 :: natToBytesLE w (n / 256)

/-- An edit record (the `codeColorBuffer` payload handed to
`queueOctreeEditMessage`): octcode-led bytes `pre`, the embedded 64-bit
edit timestamp, trailing bytes `post`.  Where inside the record the
timestamp sits is owned by the entity codec; only its presence and width
matter here. -/
structure EditRecord where
  pre : List Nat
  timestamp : Nat
  post : List Nat
  deriving Repr, DecidableEq

/-- The wire bytes of a record. -/
def encodeRecord (r : EditRecord) : List Nat :=
  r.pre ++ natToBytesLE 8 r.timestamp ++ r.post

/-- The `length` argument accompanying a record's bytes. -/
def encLen (r : EditRecord) : Nat :=
  r.pre.length + 8 + r.post.length

/-- Modelled from the spec (§4.2 step 3, glossary): the virtual
`adjustEditPacketForClockSkew` is implemented outside these source files; per
the spec it rewrites the record's embedded timestamp by the destination's
estimated clock offset (64-bit wraparound arithmetic). -/
def adjustEditPacketForClockSkew (r : EditRecord) (clockSkewUsec : Int) : EditRecord :=
  { r with timestamp := (((r.timestamp : Int) + clockSkewUsec) % (2 ^ 64 : Int)).toNat }

/-- A directory entry for a reachable node: identity, node type, whether a
socket is active, and the estimated clock skew in microseconds.  UUID `0`
models the null `QUuid`. -/
structure NodeInfo where
  uuid : Nat
  nodeType : Nat
  activeSocket : Bool
  clockSkewUsec : Int
  deriving Repr, DecidableEq

/-- The external collaborators of the sender: the node directory, the
jurisdiction map (a per-server membership predicate over octcode-led bytes),
the packet-header codec (`populatePacketHeader` image and
`numBytesForPacketHeader`), and the current wall clock `usecTimestampNow`. -/
structure Env where
  myNodeType : Nat
  nodes : List NodeInfo
  serverJurisdictions : Option (List (Nat × (List Nat → Bool)))
  headerFor : Nat → List Nat
  headerBytesOf : List Nat → Nat
  now : Nat

/-- `EditPacketBuffer`: per-destination accumulator.  `currentType = 0` models
`PacketTypeUnknown`; `_currentSize` is `currentBuffer.length`. -/
structure EditPacketBuffer where
  nodeUUID : Nat
  currentType : Nat
  currentBuffer : List Nat
  deriving Repr, DecidableEq

/-- A default-constructed `EditPacketBuffer` (the value `std::map::operator[]`
creates for a fresh key). -/
def defaultEditPacketBuffer : EditPacketBuffer :=
  ⟨0, 0, []⟩

/-- The sender's mutable state.  `sent` records, in order, the packets handed
to the transport (`queuePacketForSending`), each tagged with the receiving
node's UUID. -/
structure SenderState where
  shouldSend : Bool
  maxPendingMessages : Nat
  releaseQueuedMessagesPending : Bool
  sequenceNumber : Nat
  maxPacketSize : Nat
  preServerSingleMessagePackets : List (Nat × List Nat)
  preServerPackets : List (Nat × EditRecord)
  pendingEditPackets : List (Nat × EditPacketBuffer)
  sent : List (Nat × List Nat)

/-- The state after the `OctreeEditPacketSender` constructor (lines 32-40),
with the externally supplied `MAX_PACKET_SIZE` and
`DEFAULT_MAX_PENDING_MESSAGES` as parameters. -/
def mkInitialState (maxPacketSize maxPendingMessages : Nat) : SenderState :=
  ⟨true, maxPendingMessages, false, 0, maxPacketSize, [], [], [], []⟩

/-- A node is a candidate destination: my node type with an active socket. -/
def isMyTypeActive (env : Env) (n : NodeInfo) : Bool :=
  n.nodeType == env.myNodeType && n.activeSocket

/-- `OctreeEditPacketSender::serversExist` (lines 59-86): some candidate
destination exists and, when a jurisdiction table is set, none of the
candidates is missing from it. -/
def serversExist (env : Env) : Bool :=
  env.nodes.any (isMyTypeActive env) &&
  !(env.nodes.any fun n =>
      isMyTypeActive env n &&
      (match env.serverJurisdictions with
       | none => false
       | some m => (m.lookup n.uuid).isNone))

/-- The transport hand-offs performed by `queuePacketToNode` (lines 90-117):
one copy of `bytes` per node of my type whose UUID matches (or when the
target UUID is null). -/
def queuePacketToNodeSends (env : Env) (nodeUUID : Nat) (bytes : List Nat) :
    List (Nat × List Nat) :=
  env.nodes.filterMap fun n =>
    if n.nodeType == env.myNodeType && (n.uuid == nodeUUID || nodeUUID == 0) && n.activeSocket
    then some (n.uuid, bytes)
    else none

/-- `OctreeEditPacketSender::queuePacketToNode` as a state transformer. -/
def queuePacketToNode (env : Env) (st : SenderState) (nodeUUID : Nat) (bytes : List Nat) :
    SenderState :=
  { st with sent := st.sent ++ queuePacketToNodeSends env nodeUUID bytes }

/-- `OctreeEditPacketSender::releaseQueuedPacket` (lines 290-296): hand the
buffer to the transport when it is non-empty and typed, then reset it. -/
def releaseQueuedPacket (env : Env) (st : SenderState) (pb : EditPacketBuffer) :
    SenderState × EditPacketBuffer :=
  (if 0 < pb.currentBuffer.length ∧ pb.currentType ≠ 0 then
     queuePacketToNode env st pb.nodeUUID pb.currentBuffer
   else st,
   { pb with currentBuffer := [], currentType := 0 })

/-- `OctreeEditPacketSender::initializePacket` (lines 298-314): fresh header
(packet type bytes, 16-bit sequence number, 64-bit origin timestamp, in that
order), then bump the sequence counter. -/
def initializePacket (headerFor : Nat → List Nat) (now : Nat) (st : SenderState)
    (pb : EditPacketBuffer) (ptype : Nat) : SenderState × EditPacketBuffer :=
  ({ st with sequenceNumber := st.sequenceNumber + 1 },
   { pb with
      currentBuffer := headerFor ptype ++ natToBytesLE 2 st.sequenceNumber ++ natToBytesLE 8 now,
      currentType := ptype })

/-- The jurisdiction test of `queueOctreeEditMessage` (lines 236-245): with no
table everything is in jurisdiction; with a table, a missing node is out of
jurisdiction, otherwise its membership predicate decides. -/
def isMyJurisdiction (env : Env) (nodeUUID : Nat) (bytes : List Nat) : Bool :=
  match env.serverJurisdictions with
  | none => true
  | some m =>
    match m.lookup nodeUUID with
    | some jmap => jmap bytes
    | none => false

/-- Replace-or-append on the per-destination buffer map
(`_pendingEditPackets[nodeUUID] = ...`). -/
def assocSet (l : List (Nat × EditPacketBuffer)) (k : Nat) (v : EditPacketBuffer) :
    List (Nat × EditPacketBuffer) :=
  match l with
  | [] => [(k, v)]
  | (k', v') :: rest => if k' = k then (k, v) :: rest else (k', v') :: assocSet rest k v

/-- The per-node body of `queueOctreeEditMessage`'s dispatch loop (lines
230-274).  The accumulator carries the state together with the current value
of the record, because the source adjusts the shared `codeColorBuffer` in
place, so a skew adjustment made for one node is visible to later nodes. -/
def queueEditToNode (env : Env) (ptype : Nat) (acc : SenderState × EditRecord)
    (n : NodeInfo) : SenderState × EditRecord :=
  let st := acc.1
  let rec0 := acc.2
  if n.activeSocket && n.nodeType == env.myNodeType then
    if isMyJurisdiction env n.uuid (encodeRecord rec0) then
      let pb1 : EditPacketBuffer :=
        { (st.pendingEditPackets.lookup n.uuid).getD defaultEditPacketBuffer with
            nodeUUID := n.uuid }
      let s2 : SenderState × EditPacketBuffer :=
        if (ptype ≠ pb1.currentType ∧ 0 < pb1.currentBuffer.length) ∨
            st.maxPacketSize ≤ pb1.currentBuffer.length + encLen rec0 then
          let r := releaseQueuedPacket env st pb1
          initializePacket env.headerFor env.now r.1 r.2 ptype
        else (st, pb1)
      let s3 : SenderState × EditPacketBuffer :=
        if ptype ≠ s2.2.currentType ∧ s2.2.currentBuffer.length = 0 then
          initializePacket env.headerFor env.now s2.1 s2.2 ptype
        else s2
      let rec1 :=
        if n.clockSkewUsec ≠ 0 then adjustEditPacketForClockSkew rec0 n.clockSkewUsec else rec0
      let pb4 := { s3.2 with currentBuffer := s3.2.currentBuffer ++ encodeRecord rec1 }
      ({ s3.1 with pendingEditPackets := assocSet s3.1.pendingEditPackets n.uuid pb4 }, rec1)
    else (st, rec0)
  else (st, rec0)

/-- `OctreeEditPacketSender::queueOctreeEditMessage` (lines 199-275): bail when
sending is off; while no jurisdictions are known, append to the bounded
pending FIFO (dropping that FIFO's oldest entry when the combined pending
count exceeds the bound); otherwise run the per-node dispatch loop. -/
def queueOctreeEditMessage (env : Env) (st : SenderState) (ptype : Nat) (r : EditRecord) :
    SenderState :=
  if !st.shouldSend then st
  else if !serversExist env then
    if 0 < st.maxPendingMessages then
      let st1 := { st with preServerPackets := st.preServerPackets ++ [(ptype, r)] }
      if st1.maxPendingMessages <
          st1.preServerSingleMessagePackets.length + st1.preServerPackets.length then
        { st1 with preServerPackets := st1.preServerPackets.drop 1 }
      else st1
    else st
  else
    (env.nodes.foldl (queueEditToNode env ptype) (st, r)).1

/-- `OctreeEditPacketSender::queuePendingPacketToNodes` (lines 148-164): save a
fully formed single-message packet while waiting for jurisdictions, dropping
the oldest single-message entry when the combined pending count exceeds the
bound. -/
def queuePendingPacketToNodes (st : SenderState) (ptype : Nat) (bytes : List Nat) :
    SenderState :=
  if 0 < st.maxPendingMessages then
    let st1 := { st with
      preServerSingleMessagePackets := st.preServerSingleMessagePackets ++ [(ptype, bytes)] }
    if st1.maxPendingMessages <
        st1.preServerSingleMessagePackets.length + st1.preServerPackets.length then
      { st1 with
        preServerSingleMessagePackets := st1.preServerSingleMessagePackets.drop 1 }
    else st1
  else st

/-- `OctreeEditPacketSender::queuePacketToNodes` (lines 166-195): route a fully
formed packet to every candidate node whose jurisdiction contains the
packet's octcode (found just past the header: type bytes plus the 2-byte
sequence and 8-byte timestamp). -/
def queuePacketToNodes (env : Env) (st : SenderState) (bytes : List Nat) : SenderState :=
  if !st.shouldSend then st
  else
    let octCode := bytes.drop (env.headerBytesOf bytes + 10)
    env.nodes.foldl
      (fun s n =>
        if n.activeSocket && n.nodeType == env.myNodeType then
          let within :=
            match env.serverJurisdictions with
            | none => false
            | some m =>
              match m.lookup n.uuid with
              | some jmap => jmap octCode
              | none => false
          if within then queuePacketToNode env s n.uuid bytes else s
        else s)
      st

/-- The draining part of `processPreServerExistsPackets` (lines 122-138):
dispatch all saved single-message packets, then replay all saved packable
records through the normal batching path, emptying both queues. -/
def drainPhase (env : Env) (st : SenderState) : SenderState :=
  let st1 := st.preServerSingleMessagePackets.foldl
    (fun s p => queuePacketToNodes env s p.2)
    { st with preServerSingleMessagePackets := [] }
  st1.preServerPackets.foldl
    (fun s p => queueOctreeEditMessage env s p.1 p.2)
    { st1 with preServerPackets := [] }

/-- The transport hand-offs one `queuePacketToNodes` call produces for the
node list `nodes`, in node order: for each candidate node whose jurisdiction
contains `octCode`, the sends of `queuePacketToNode`. -/
def queuePacketToNodesSendsAux (env : Env) (octCode bytes : List Nat) :
    List NodeInfo → List (Nat × List Nat)
  | [] => []
  | n :: rest =>
    (if n.activeSocket && n.nodeType == env.myNodeType then
      (if (match env.serverJurisdictions with
           | none => false
           | some m =>
             match m.lookup n.uuid with
             | some jmap => jmap octCode
             | none => false) then queuePacketToNodeSends env n.uuid bytes
       else [])
     else []) ++ queuePacketToNodesSendsAux env octCode bytes rest

/-- The transport hand-offs of one `queuePacketToNodes` call. -/
def queuePacketToNodesSends (env : Env) (bytes : List Nat) : List (Nat × List Nat) :=
  queuePacketToNodesSendsAux env (bytes.drop (env.headerBytesOf bytes + 10)) bytes env.nodes

/-- The transport hand-offs of dispatching a queue of single-message packets in
queue order. -/
def singlesSends (env : Env) : List (Nat × List Nat) → List (Nat × List Nat)
  | [] => []
  | p :: rest => queuePacketToNodesSends env p.2 ++ singlesSends env rest

/-- Fold of `queuePendingPacketToNodes` over a list of `(type, packet bytes)`
single-message submissions. -/
def runSingles (st : SenderState) (pkts : List (Nat × List Nat)) : SenderState :=
  pkts.foldl (fun s p => queuePendingPacketToNodes s p.1 p.2) st

/-- Flush-and-reset of every buffer in the map, in map order (the loop of
`releaseQueuedMessages`, lines 284-286). -/
def flushBuffers (env : Env) (st : SenderState) :
    List (Nat × EditPacketBuffer) → SenderState × List (Nat × EditPacketBuffer)
  | [] => (st, [])
  | e :: rest =>
    let r1 := releaseQueuedPacket env st e.2
    let r2 := flushBuffers env r1.1 rest
    (r2.1, (e.1, r1.2) :: r2.2)

/-- The transport hand-offs that flushing a buffer list produces, in order. -/
def flushSends (env : Env) : List (Nat × EditPacketBuffer) → List (Nat × List Nat)
  | [] => []
  | e :: rest =>
    (if 0 < e.2.currentBuffer.length ∧ e.2.currentType ≠ 0 then
       queuePacketToNodeSends env e.2.nodeUUID e.2.currentBuffer
     else []) ++ flushSends env rest

/-- `OctreeEditPacketSender::releaseQueuedMessages` (lines 277-288): with no
jurisdictions yet, latch the request; otherwise flush every per-destination
buffer. -/
def releaseQueuedMessages (env : Env) (st : SenderState) : SenderState :=
  if !serversExist env then
    { st with releaseQueuedMessagesPending := true }
  else
    let r := flushBuffers env st st.pendingEditPackets
    { r.1 with pendingEditPackets := r.2 }

/-- `OctreeEditPacketSender::processPreServerExistsPackets` (lines 119-146):
drain the pending queues, then honor a latched release request and clear the
latch. -/
def processPreServerExistsPackets (env : Env) (st : SenderState) : SenderState :=
  let st1 := drainPhase env st
  if st1.releaseQueuedMessagesPending then
    { releaseQueuedMessages env st1 with releaseQueuedMessagesPending := false }
  else st1

/-- `OctreeEditPacketSender::process` (lines 316-325), up to the base class's
transport pump: drain the pre-server queues once jurisdictions are known and
something is pending. -/
def process (env : Env) (st : SenderState) : SenderState :=
  if serversExist env && !(st.preServerPackets.isEmpty && st.preServerSingleMessagePackets.isEmpty)
  then processPreServerExistsPackets env st
  else st

/-- One run of `initializePacket` per `(packet type, usecTimestampNow)` pair,
collecting each freshly initialized buffer. -/
def initializeMany (headerFor : Nat → List Nat) (st : SenderState) (pb : EditPacketBuffer) :
    List (Nat × Nat) → List (List Nat)
  | [] => []
  | c :: rest =>
    let r := initializePacket headerFor c.2 st pb c.1
    r.2.currentBuffer :: initializeMany headerFor r.1 r.2 rest

/-- The spec's header contract (§4.2 header construction): packet type bytes,
then the 16-bit sequence number — increasing by exactly one per new buffer,
wrapping modulo `2^16` — then the 64-bit origin timestamp. -/
def specHeaderSequence (headerFor : Nat → List Nat) : Nat → List (Nat × Nat) → List (List Nat)
  | _, [] => []
  | s, c :: rest =>
    (headerFor c.1 ++ natToBytesLE 2 (s % 2 ^ 16) ++ natToBytesLE 8 c.2) ::
      specHeaderSequence headerFor (s + 1) rest

/-- The push-then-bound step shared by both bootstrap queues: append, and when
the capacity is exceeded drop this queue's oldest entry. -/
def fifoPush {α : Type} (cap : Nat) (q : List α) (x : α) : List α :=
  if cap < (q ++ [x]).length then (q ++ [x]).drop 1 else q ++ [x]

/-- Fold of `queueOctreeEditMessage` over a list of `(type, record)` edits. -/
def runEdits (env : Env) (st : SenderState) (edits : List (Nat × EditRecord)) : SenderState :=
  edits.foldl (fun s e => queueOctreeEditMessage env s e.1 e.2) st

/-- Every packet handed to the transport is at most `cap` bytes long. -/
def sentBounded (cap : Nat) (st : SenderState) : Prop :=
  ∀ p ∈ st.sent, (p : Nat × List Nat).2.length ≤ cap

/-- Every per-destination buffer holds at most `cap` bytes. -/
def buffersBounded (cap : Nat) (st : SenderState) : Prop :=
  ∀ e ∈ st.pendingEditPackets, (e : Nat × EditPacketBuffer).2.currentBuffer.length ≤ cap

/-- An edit fits a packet of size `cap`: fresh header plus record bytes. -/
@[reducible] def editFits (env : Env) (cap : Nat) (e : Nat × EditRecord) : Prop :=
  (env.headerFor e.1).length + 10 + encLen e.2 ≤ cap ∧ e.1 ≠ 0

/-! ## Concrete instances used by counterexamples and witnesses -/

/-- A one-byte packet-type header codec for concrete scenarios. -/
def cxHeaderFor : Nat → List Nat := fun t => [t % 256]

/-- Bootstrap environment: no servers known at all. -/
def cxEnvEmpty : Env := ⟨7, [], some [], cxHeaderFor, fun _ => 1, 42⟩

/-- Two reachable servers of my type, both owning everything, with clock skews
10 and 100 microseconds. -/
def cxEnvTwoNodes : Env :=
  ⟨7, [⟨1, 7, true, 10⟩, ⟨2, 7, true, 100⟩],
   some [(1, fun _ => true), (2, fun _ => true)], cxHeaderFor, fun _ => 1, 42⟩

/-- One reachable zero-skew server of my type owning everything. -/
def cxEnvOneNode : Env :=
  ⟨7, [⟨5, 7, true, 0⟩], some [(5, fun _ => true)], cxHeaderFor, fun _ => 1, 42⟩

/-- A small edit record: one octcode byte, embedded timestamp 1000. -/
def cxRecord : EditRecord := ⟨[7], 1000, []⟩

/-- Entities for the store scenarios. -/
def cxModelA : ModelItem := ⟨1, 0, 0, (0, 0, 0), false, 0⟩

/-- An entity three units away from the origin. -/
def cxModelB : ModelItem := ⟨2, 0, 0, (3, 0, 0), false, 0⟩

/-- A stored entity older than both competing updates. -/
def cxLocal : ModelItem := ⟨1, 0, 0, (0, 0, 0), false, 0⟩

/-- An update that is newer in `lastEdited` only, carrying payload 100. -/
def cxU1 : ModelItem := ⟨1, 1, 0, (0, 0, 0), false, 100⟩

/-- An update that is newer in `lastUpdated` only, carrying payload 200. -/
def cxU2 : ModelItem := ⟨1, 0, 1, (0, 0, 0), false, 200⟩

/-- A sender state holding one non-empty typed per-destination buffer for node
5 and empty pre-server queues. -/
def cxStWithBuffer : SenderState :=
  { mkInitialState 1000 10 with pendingEditPackets := [(5, ⟨5, 3, [1, 2, 3]⟩)] }

/-- A concrete bounding-box test: x-coordinate at most one. -/
def cxInBox : Pos → Bool := fun p => p.1 ≤ 1

/-- A dying entity at the origin. -/
def cxModelDying : ModelItem := ⟨3, 0, 0, (0, 0, 0), true, 0⟩

/-- An oversized edit record: 25 encoded bytes. -/
def cxBigRecord : EditRecord :=
  ⟨[7], 1000, [0, 0, 0, 0, 0, 0, 0, 0, 0, 0, 0, 0, 0, 0, 0, 0]⟩

/-! ## Helper lemmas -/

theorem natToBytesLE_length (w : Nat) : ∀ n, (natToBytesLE w n).length = w := by
  induction w with
  | zero => intro n; rfl
  | succ w ih => intro n; simp [natToBytesLE, ih]

theorem encodeRecord_length (r : EditRecord) : (encodeRecord r).length = encLen r := by
  simp [encodeRecord, encLen, natToBytesLE_length]
  omega

theorem encLen_adjust (r : EditRecord) (k : Int) :
    encLen (adjustEditPacketForClockSkew r k) = encLen r := by
  simp [adjustEditPacketForClockSkew, encLen]

theorem lookup_mem {l : List (Nat × EditPacketBuffer)} {k : Nat} {v : EditPacketBuffer}
    (h : l.lookup k = some v) : (k, v) ∈ l := by
  induction l with
  | nil => simp [List.lookup] at h
  | cons e rest ih =>
    obtain ⟨a, b⟩ := e
    rw [List.lookup] at h
    cases hk : (k == a) with
    | true =>
      rw [hk] at h
      simp only [Option.some.injEq] at h
      have ha : k = a := by simpa using hk
      exact List.mem_cons.mpr (Or.inl (by simp [ha, h]))
    | false =>
      rw [hk] at h
      exact List.mem_cons_of_mem _ (ih h)

theorem mem_assocSet {k : Nat} {v : EditPacketBuffer} :
    ∀ {l : List (Nat × EditPacketBuffer)} {e : Nat × EditPacketBuffer},
      e ∈ assocSet l k v → e = (k, v) ∨ e ∈ l := by
  intro l
  induction l with
  | nil => intro e h; simp [assocSet] at h; simp [h]
  | cons p rest ih =>
    intro e h
    rw [assocSet] at h
    by_cases hk : p.1 = k
    · rw [if_pos hk] at h
      rcases List.mem_cons.mp h with h1 | h1
      · exact Or.inl h1
      · exact Or.inr (List.mem_cons_of_mem _ h1)
    · rw [if_neg hk] at h
      rcases List.mem_cons.mp h with h1 | h1
      · exact Or.inr (by simp [h1])
      · rcases ih h1 with h2 | h2
        · exact Or.inl h2
        · exact Or.inr (List.mem_cons_of_mem _ h2)

/-! ## C1: upsert-by-server-edit contract -/

theorem updateModel_notfound (incoming : ModelItem) :
    ∀ items : List ModelItem, (∀ m ∈ items, m.id ≠ incoming.id) →
      updateModel items incoming = (items, false) := by
  intro items
  induction items with
  | nil => intro _; rfl
  | cons m rest ih =>
    intro h
    have hm : m.id ≠ incoming.id := h m (by simp)
    have hr := ih (fun x hx => h x (by simp [hx]))
    simp [updateModel, hm, hr]

theorem updateModel_found (incoming loc : ModelItem) (post : List ModelItem) :
    ∀ pre : List ModelItem, (∀ m ∈ pre, m.id ≠ incoming.id) → loc.id = incoming.id →
      updateModel (pre ++ loc :: post) incoming =
        (pre ++ mergeModel loc incoming :: post, true) := by
  intro pre
  induction pre with
  | nil => intro _ hloc; simp [updateModel, hloc]
  | cons m rest ih =>
    intro h hloc
    have hm : m.id ≠ incoming.id := h m (by simp)
    have hr := ih (fun x hx => h x (by simp [hx])) hloc
    simp [updateModel, hm, hr]

/-- C1.  `updateModel(ModelItem)` on a node that stores an entity with the
incoming numeric ID (first match `loc`) overwrites that entity's properties
iff `loc.lastEdited < incoming.lastEdited ∨ loc.lastUpdated <
incoming.lastUpdated`, leaves it unchanged otherwise, keeps everything else
in place, and returns `true`; on a node storing no entity with that ID it
changes nothing and returns `false`. -/
theorem upsert_by_server_edit_contract (incoming loc : ModelItem)
    (pre post items : List ModelItem)
    (hpre : ∀ m ∈ pre, m.id ≠ incoming.id) (hloc : loc.id = incoming.id)
    (hitems : ∀ m ∈ items, m.id ≠ incoming.id) :
    updateModel (pre ++ loc :: post) incoming =
      (pre ++ (if loc.lastEdited < incoming.lastEdited ∨ loc.lastUpdated < incoming.lastUpdated
               then incoming else loc) :: post, true) ∧
    updateModel items incoming = (items, false) := by
  refine ⟨?_, updateModel_notfound incoming items hitems⟩
  rw [updateModel_found incoming loc post pre hpre hloc]
  simp [mergeModel, copyChangedProperties]

/-- Witness for C1 at concrete inputs. -/
theorem upsert_by_server_edit_contract_witness :
    updateModel ([cxModelB] ++ cxLocal :: []) cxU1 = ([cxModelB] ++ cxU1 :: [], true) ∧
    updateModel [cxModelB] cxU1 = ([cxModelB], false) := by
  have h := upsert_by_server_edit_contract cxU1 cxLocal [cxModelB] [] [cxModelB]
    (by decide) (by decide) (by decide)
  refine ⟨?_, h.2⟩
  rw [h.1]
  decide

/-! ## C2: algebra of the server-edit merge -/

theorem mergeModel_overwrite (h u : ModelItem)
    (hc : h.lastEdited < u.lastEdited ∨ h.lastUpdated < u.lastUpdated) :
    mergeModel h u = u := by
  simp [mergeModel, copyChangedProperties, hc]

theorem mergeModel_keep (h u : ModelItem)
    (hc : ¬(h.lastEdited < u.lastEdited ∨ h.lastUpdated < u.lastUpdated)) :
    mergeModel h u = h := by
  simp only [mergeModel, if_neg hc]

theorem mergeModel_id_eq (h u : ModelItem) (hid : h.id = u.id) :
    (mergeModel h u).id = u.id := by
  by_cases hc : h.lastEdited < u.lastEdited ∨ h.lastUpdated < u.lastUpdated
  · rw [mergeModel_overwrite h u hc]
  · rw [mergeModel_keep h u hc]; exact hid

theorem mergeModel_idem (h u : ModelItem) :
    mergeModel (mergeModel h u) u = mergeModel h u := by
  by_cases hc : h.lastEdited < u.lastEdited ∨ h.lastUpdated < u.lastUpdated
  · rw [mergeModel_overwrite h u hc]
    exact mergeModel_keep u u (by omega)
  · rw [mergeModel_keep h u hc]
    exact mergeModel_keep h u hc

theorem mergeModel_comm_of_strict (h u1 u2 : ModelItem)
    (hlt : u1.lastEdited < u2.lastEdited ∧ u1.lastUpdated < u2.lastUpdated) :
    mergeModel (mergeModel h u1) u2 = mergeModel (mergeModel h u2) u1 := by
  by_cases c1 : h.lastEdited < u1.lastEdited ∨ h.lastUpdated < u1.lastUpdated
  · have c2 : h.lastEdited < u2.lastEdited ∨ h.lastUpdated < u2.lastUpdated := by omega
    rw [mergeModel_overwrite h u1 c1, mergeModel_overwrite h u2 c2,
      mergeModel_overwrite u1 u2 (Or.inl hlt.1), mergeModel_keep u2 u1 (by omega)]
  · rw [mergeModel_keep h u1 c1]
    by_cases c2 : h.lastEdited < u2.lastEdited ∨ h.lastUpdated < u2.lastUpdated
    · rw [mergeModel_overwrite h u2 c2, mergeModel_keep u2 u1 (by omega)]
    · rw [mergeModel_keep h u2 c2, mergeModel_keep h u1 c1]

theorem applyUpdate_cons_eq (h u : ModelItem) (t : List ModelItem) (hid : h.id = u.id) :
    applyUpdate (h :: t) u = mergeModel h u :: t := by
  simp [applyUpdate, updateModel, hid]

theorem applyUpdate_cons_ne (h u : ModelItem) (t : List ModelItem) (hid : h.id ≠ u.id) :
    applyUpdate (h :: t) u = h :: applyUpdate t u := by
  simp [applyUpdate, updateModel, hid]

theorem applyUpdate_idem (u : ModelItem) :
    ∀ items : List ModelItem, applyUpdate (applyUpdate items u) u = applyUpdate items u := by
  intro items
  induction items with
  | nil => rfl
  | cons h t ih =>
    by_cases hid : h.id = u.id
    · rw [applyUpdate_cons_eq h u t hid,
        applyUpdate_cons_eq (mergeModel h u) u t (mergeModel_id_eq h u hid),
        mergeModel_idem]
    · rw [applyUpdate_cons_ne h u t hid, applyUpdate_cons_ne h u _ hid, ih]

theorem applyUpdate_comm_of_strict (u1 u2 : ModelItem) (hid : u1.id = u2.id)
    (hlt : u1.lastEdited < u2.lastEdited ∧ u1.lastUpdated < u2.lastUpdated) :
    ∀ items : List ModelItem,
      applyUpdate (applyUpdate items u1) u2 = applyUpdate (applyUpdate items u2) u1 := by
  intro items
  induction items with
  | nil => rfl
  | cons h t ih =>
    by_cases h1 : h.id = u1.id
    · have h2 : h.id = u2.id := hid ▸ h1
      rw [applyUpdate_cons_eq h u1 t h1, applyUpdate_cons_eq h u2 t h2,
        applyUpdate_cons_eq (mergeModel h u1) u2 t
          (by rw [mergeModel_id_eq h u1 h1]; exact hid),
        applyUpdate_cons_eq (mergeModel h u2) u1 t
          (by rw [mergeModel_id_eq h u2 h2]; exact hid.symm),
        mergeModel_comm_of_strict h u1 u2 hlt]
    · have h2 : h.id ≠ u2.id := fun hx => h1 (hid ▸ hx)
      rw [applyUpdate_cons_ne h u1 t h1, applyUpdate_cons_ne h u2 t h2,
        applyUpdate_cons_ne h u2 _ h2, applyUpdate_cons_ne h u1 _ h1, ih]

/-- Counterexample to C2 as stated: with a stored entity older than both, an
update newer only in `lastEdited` and one newer only in `lastUpdated` do not
commute — each order ends with the other update's payload. -/
theorem merge_not_commutative_cx :
    applyUpdate (applyUpdate [cxLocal] cxU1) cxU2 ≠
      applyUpdate (applyUpdate [cxLocal] cxU2) cxU1 := by
  decide

/-- C2 (amended).  The server-edit merge is idempotent: applying the same
update twice to any store yields the same final state as applying it once.
It is commutative only when one update strictly supersedes the other in both
timestamps: if `U1.lastEdited < U2.lastEdited` and `U1.lastUpdated <
U2.lastUpdated` (or symmetrically), then applying U1 then U2 equals applying
U2 then U1 on every store; without that strict domination the two orders can
disagree. -/
theorem merge_idempotent_and_dominated_commutative :
    (∀ (items : List ModelItem) (u : ModelItem),
      applyUpdate (applyUpdate items u) u = applyUpdate items u) ∧
    (∀ (items : List ModelItem) (u1 u2 : ModelItem), u1.id = u2.id →
      (u1.lastEdited < u2.lastEdited ∧ u1.lastUpdated < u2.lastUpdated) ∨
        (u2.lastEdited < u1.lastEdited ∧ u2.lastUpdated < u1.lastUpdated) →
      applyUpdate (applyUpdate items u1) u2 = applyUpdate (applyUpdate items u2) u1) := by
  refine ⟨fun items u => applyUpdate_idem u items, fun items u1 u2 hid hlt => ?_⟩
  rcases hlt with hlt | hlt
  · exact applyUpdate_comm_of_strict u1 u2 hid hlt items
  · exact (applyUpdate_comm_of_strict u2 u1 hid.symm hlt items).symm

/-- Witness for C2 (amended) at concrete inputs. -/
theorem merge_idempotent_and_dominated_commutative_witness :
    applyUpdate (applyUpdate [cxLocal] cxU1) cxU1 = applyUpdate [cxLocal] cxU1 ∧
    applyUpdate (applyUpdate [cxModelA] ⟨1, 1, 1, (0, 0, 0), false, 9⟩)
        ⟨1, 2, 2, (0, 0, 0), false, 8⟩ =
      applyUpdate (applyUpdate [cxModelA] ⟨1, 2, 2, (0, 0, 0), false, 8⟩)
        ⟨1, 1, 1, (0, 0, 0), false, 9⟩ :=
  ⟨merge_idempotent_and_dominated_commutative.1 [cxLocal] cxU1,
   merge_idempotent_and_dominated_commutative.2 [cxModelA] _ _ (by decide)
     (Or.inl (by decide))⟩

/-! ## C8: the per-tick sweep -/

theorem elementUpdate_eq (upd : ModelItem → ModelItem) (inBox : Pos → Bool) :
    ∀ (items moving : List ModelItem),
      (elementUpdate upd inBox items moving).1 =
        (items.map upd).filter (fun m => !(wantsOut inBox m)) ∧
      (elementUpdate upd inBox items moving).2 =
        moving ++ (items.map upd).filter (wantsOut inBox) := by
  intro items
  induction items with
  | nil => intro moving; simp [elementUpdate]
  | cons m rest ih =>
    intro moving
    cases hw : wantsOut inBox (upd m) with
    | true =>
      have h := ih (moving ++ [upd m])
      simp [elementUpdate, hw, h.1, h.2, List.filter_cons]
    | false =>
      have h := ih moving
      simp [elementUpdate, hw, h.1, h.2, List.filter_cons]

/-- C8.  After `ModelTreeElement::update`, every entity remaining in the node
has its should-die flag unset and a position inside the node's box, the
remaining entities are exactly the stepped entities passing that test, and
every removed (stepped) entity was appended, in order, to the caller's
`args._movingModels` list — none is dropped. -/
theorem element_update_sweep_spec (upd : ModelItem → ModelItem) (inBox : Pos → Bool)
    (items moving : List ModelItem) :
    (∀ m ∈ (elementUpdate upd inBox items moving).1,
        m.shouldDie = false ∧ inBox m.position = true) ∧
    (elementUpdate upd inBox items moving).1 =
      (items.map upd).filter (fun m => !(wantsOut inBox m)) ∧
    (elementUpdate upd inBox items moving).2 =
      moving ++ (items.map upd).filter (wantsOut inBox) := by
  have h := elementUpdate_eq upd inBox items moving
  refine ⟨?_, h.1, h.2⟩
  intro m hm
  rw [h.1] at hm
  have hw := List.of_mem_filter hm
  simp only [wantsOut, Bool.not_eq_true', Bool.or_eq_false_iff, Bool.not_eq_false] at hw
  simpa using hw

/-- Witness for C8 at concrete inputs: one dying entity, one out-of-box entity
and one surviving entity. -/
theorem element_update_sweep_spec_witness :
    (∀ m ∈ (elementUpdate id cxInBox [cxModelA, cxModelDying, cxModelB] []).1,
      m.shouldDie = false ∧ cxInBox m.position = true) ∧
    (elementUpdate id cxInBox [cxModelA, cxModelDying, cxModelB] []).1 = [cxModelA] ∧
    (elementUpdate id cxInBox [cxModelA, cxModelDying, cxModelB] []).2 =
      [cxModelDying, cxModelB] := by
  have h := element_update_sweep_spec id cxInBox [cxModelA, cxModelDying, cxModelB] []
  refine ⟨h.1, ?_, ?_⟩
  · rw [h.2.1]; decide
  · rw [h.2.2]; decide

/-! ## C10: getClosestModel -/

/-- C10 (code bug).  `getClosestModel` never updates `closestModelDistance`
inside its loop, so on a two-entity node it returns the second entity even
though the first one is strictly closer to the query position — not the
minimal-distance entity the spec promises. -/
theorem getClosestModel_returns_last_not_closest :
    getClosestModel [cxModelA, cxModelB] (0, 0, 0) = some cxModelB ∧
    distSq (0, 0, 0) cxModelA.position < distSq (0, 0, 0) cxModelB.position ∧
    cxModelB ≠ cxModelA := by
  refine ⟨rfl, by decide, by decide⟩

/-! ## C7: decode consumption and truncation safety -/

theorem readLoopBytes_le (rm : List Nat → Int → Nat) (expected : Nat)
    (hrm : ∀ d b, rm d b ≤ expected) :
    ∀ (k : Nat) (d : List Nat) (b : Int), readLoopBytes rm k d b ≤ k * expected := by
  intro k
  induction k with
  | zero => intro d b; simp [readLoopBytes]
  | succ k ih =>
    intro d b
    have h1 := hrm d b
    have h2 := ih (d.drop (rm d b)) (b - rm d b)
    simp only [readLoopBytes]
    calc rm d b + readLoopBytes rm k (d.drop (rm d b)) (b - rm d b)
        ≤ expected + k * expected := Nat.add_le_add h1 h2
      _ = (k + 1) * expected := by ring

/-- C7 (amended).  `readElementDataFromBuffer` reads the 16-bit count only when
at least two bytes remain (otherwise it consumes nothing); it runs the
decoding loop only when the remaining bytes cover
`numberOfModels * expectedBytesPerModel` in aggregate — all-or-nothing, not
the spec's per-entity stopping — consuming just the two count bytes when the
aggregate check fails; and, whenever each entity decode consumes at most
`expectedBytesPerModel` bytes, the reported consumption never exceeds the
provided `bytesLeftToRead`, so a truncated buffer is a non-fatal partial
decode with no out-of-bounds read. -/
theorem readElementDataFromBuffer_eq (rm : List Nat → Int → Nat) (expected : Nat)
    (data : List Nat) (bl : Int) :
    readElementDataFromBuffer rm expected data bl =
      if 2 ≤ bl then
        if ((readU16 data * expected : Nat) : Int) ≤ bl - 2 then
          ((2 : Int) + (readLoopBytes rm (readU16 data) (data.drop 2) (bl - 2) : Nat),
            readU16 data)
        else (2, 0)
      else (0, 0) := rfl

theorem decode_consumption_spec (rm : List Nat → Int → Nat) (expected : Nat)
    (data : List Nat) (bytesLeftToRead : Int)
    (hrm : ∀ d b, rm d b ≤ expected) (hnn : 0 ≤ bytesLeftToRead) :
    (bytesLeftToRead < 2 →
      readElementDataFromBuffer rm expected data bytesLeftToRead = (0, 0)) ∧
    (2 ≤ bytesLeftToRead → bytesLeftToRead - 2 < (readU16 data * expected : Nat) →
      readElementDataFromBuffer rm expected data bytesLeftToRead = (2, 0)) ∧
    (readElementDataFromBuffer rm expected data bytesLeftToRead).1 ≤ bytesLeftToRead ∧
    0 ≤ (readElementDataFromBuffer rm expected data bytesLeftToRead).1 := by
  rw [readElementDataFromBuffer_eq]
  refine ⟨fun hlt => ?_, fun hge hless => ?_, ?_, ?_⟩
  · rw [if_neg (by omega)]
  · rw [if_pos hge, if_neg (by omega)]
  · split
    · split
      · have h := readLoopBytes_le rm expected hrm (readU16 data) (data.drop 2)
          (bytesLeftToRead - 2)
        simp only
        omega
      · simp only
        omega
    · simpa
  · split
    · split
      · simp only
        omega
      · simp
    · simp

/-- Witness for C7 (amended) at concrete inputs. -/
theorem decode_consumption_spec_witness :
    readElementDataFromBuffer (fun _ _ => 10) 10 [2, 0] 12 = (2, 0) ∧
    (readElementDataFromBuffer (fun _ _ => 10) 10 [2, 0] 12).1 ≤ 12 ∧
    readElementDataFromBuffer (fun _ _ => 10) 10 [2, 0] 1 = (0, 0) := by
  have h12 := decode_consumption_spec (fun _ _ => 10) 10 [2, 0] 12
    (fun _ _ => le_refl 10) (by norm_num)
  have h1 := decode_consumption_spec (fun _ _ => 10) 10 [2, 0] 1
    (fun _ _ => le_refl 10) (by norm_num)
  exact ⟨h12.2.1 (by norm_num) (by norm_num [readU16]), h12.2.2.1, h1.1 (by norm_num)⟩

/-- Counterexample to C7 as stated: with two encoded entities of 10 bytes each
and 12 bytes remaining, the spec's one-at-a-time decode consumes 12 bytes
and yields one entity, but the source's aggregate pre-check decodes nothing
and consumes only the 2 count bytes. -/
theorem decode_all_or_nothing_cx :
    readElementDataFromBuffer (fun _ _ => 10) 10 [2, 0] 12 = (2, 0) ∧
    specDecode (fun _ _ => 10) [2, 0] 12 = (12, 1) ∧
    ((2 : Int), (0 : Nat)) ≠ ((12 : Int), (1 : Nat)) := by
  refine ⟨by decide, by decide, by decide⟩

/-! ## C9: header layout and sequence numbering -/

theorem natToBytesLE_two_mod (s : Nat) : natToBytesLE 2 s = natToBytesLE 2 (s % 2 ^ 16) := by
  simp only [natToBytesLE, List.cons.injEq, and_true]
  omega

/-- C9.  Every freshly initialized packet buffer is exactly the packet-type
header, then the 16-bit sequence number, then the 64-bit origin timestamp
(the `usecTimestampNow` sample passed to `initializePacket`, before any skew
correction is applied to record payloads), in that order; and across
successive initializations the stored sequence number increases by exactly
one per buffer, wrapping modulo `2^16` — as `specHeaderSequence` states. -/
theorem initializePacket_layout_and_sequence (headerFor : Nat → List Nat) :
    ∀ (calls : List (Nat × Nat)) (st : SenderState) (pb : EditPacketBuffer),
      initializeMany headerFor st pb calls =
        specHeaderSequence headerFor st.sequenceNumber calls := by
  intro calls
  induction calls with
  | nil => intro st pb; rfl
  | cons c rest ih =>
    intro st pb
    simp only [initializeMany, specHeaderSequence, initializePacket]
    congr 1
    · rw [natToBytesLE_two_mod]
    · exact ih _ _

/-! ## C3: the bootstrap FIFO bound -/

theorem foldl_fifoPush {α : Type} (C : Nat) (_hC : 0 < C) :
    ∀ (xs q : List α), q.length ≤ C →
      List.foldl (fifoPush C) q xs = (q ++ xs).drop (q.length + xs.length - C) := by
  intro xs
  induction xs with
  | nil =>
    intro q hq
    simp [Nat.sub_eq_zero_of_le hq]
  | cons x rest ih =>
    intro q hq
    rw [List.foldl_cons]
    by_cases hl : C < (q ++ [x]).length
    · have hqC : q.length = C := by simp at hl; omega
      have h1 : fifoPush C q x = (q ++ [x]).drop 1 := by rw [fifoPush, if_pos hl]
      have hlen : ((q ++ [x]).drop 1).length ≤ C := by simp; omega
      rw [h1, ih _ hlen]
      rw [← List.drop_append_of_le_length (by simp : 1 ≤ (q ++ [x]).length),
        List.drop_drop]
      have h2 : (q ++ [x]) ++ rest = q ++ x :: rest := by simp
      rw [h2]
      congr 1
      simp
      omega
    · have h1 : fifoPush C q x = q ++ [x] := by rw [fifoPush, if_neg hl]
      have hlen : (q ++ [x]).length ≤ C := by omega
      rw [h1, ih _ hlen]
      have h2 : (q ++ [x]) ++ rest = q ++ x :: rest := by simp
      rw [h2]
      congr 1
      simp
      omega

theorem queueOctreeEditMessage_bootstrap (env : Env) (st : SenderState) (t : Nat)
    (r : EditRecord) (hex : serversExist env = false) (hsend : st.shouldSend = true)
    (hcap : 0 < st.maxPendingMessages) (hs : st.preServerSingleMessagePackets = []) :
    queueOctreeEditMessage env st t r =
      { st with preServerPackets := fifoPush st.maxPendingMessages st.preServerPackets (t, r) } := by
  rw [queueOctreeEditMessage]
  simp only [hex, hsend, Bool.not_true, Bool.not_false, if_neg, if_pos, Bool.false_eq_true,
    if_false, if_true]
  rw [if_pos hcap, fifoPush]
  simp only [hs, List.length_nil, List.length_append, List.length_cons, Nat.zero_add]
  split
  · rfl
  · rfl

theorem runEdits_bootstrap (env : Env) (hex : serversExist env = false) :
    ∀ (edits : List (Nat × EditRecord)) (st : SenderState),
      st.shouldSend = true → 0 < st.maxPendingMessages →
      st.preServerSingleMessagePackets = [] →
      runEdits env st edits =
        { st with preServerPackets :=
            List.foldl (fifoPush st.maxPendingMessages) st.preServerPackets edits } := by
  intro edits
  induction edits with
  | nil => intro st _ _ _; rfl
  | cons e rest ih =>
    intro st hsend hcap hs
    have h1 : runEdits env st (e :: rest) =
        runEdits env
          { st with
            preServerPackets := fifoPush st.maxPendingMessages st.preServerPackets (e.1, e.2) }
          rest := by
      rw [runEdits, runEdits, List.foldl_cons,
        queueOctreeEditMessage_bootstrap env st e.1 e.2 hex hsend hcap hs]
    have h2 := ih { st with preServerPackets := fifoPush st.maxPendingMessages st.preServerPackets (e.1, e.2) } hsend hcap hs
    rw [h1, h2, List.foldl_cons]

/-- Counterexample to C3 as stated: with capacity 1, submit one packable edit
while no jurisdiction is known, then one single-message packet.  The second
submission pushes the combined count to 2 > 1, but the code drops the oldest
entry of the *newly appended* queue — which is the brand-new single-message
packet itself — so the retained entry is the oldest edit, not the
most-recent one. -/
theorem bootstrap_fifo_cx :
    (queuePendingPacketToNodes
        (queueOctreeEditMessage cxEnvEmpty (mkInitialState 1000 1) 3 cxRecord)
        5 [9, 9]).preServerPackets = [(3, cxRecord)] ∧
    (queuePendingPacketToNodes
        (queueOctreeEditMessage cxEnvEmpty (mkInitialState 1000 1) 3 cxRecord)
        5 [9, 9]).preServerSingleMessagePackets = [] := by
  constructor
  · rfl
  · rfl

theorem queuePendingPacketToNodes_step (st : SenderState) (t : Nat) (b : List Nat)
    (hcap : 0 < st.maxPendingMessages) (hp : st.preServerPackets = []) :
    queuePendingPacketToNodes st t b =
      { st with preServerSingleMessagePackets :=
          fifoPush st.maxPendingMessages st.preServerSingleMessagePackets (t, b) } := by
  rw [queuePendingPacketToNodes, if_pos hcap, fifoPush]
  simp only [hp, List.length_nil, List.length_append, List.length_cons, Nat.add_zero]
  split
  · rfl
  · rfl

theorem runSingles_bootstrap :
    ∀ (pkts : List (Nat × List Nat)) (st : SenderState),
      0 < st.maxPendingMessages → st.preServerPackets = [] →
      runSingles st pkts =
        { st with preServerSingleMessagePackets :=
            List.foldl (fifoPush st.maxPendingMessages) st.preServerSingleMessagePackets pkts } := by
  intro pkts
  induction pkts with
  | nil => intro st _ _; rfl
  | cons p rest ih =>
    intro st hcap hp
    have h1 : runSingles st (p :: rest) =
        runSingles
          { st with preServerSingleMessagePackets :=
              fifoPush st.maxPendingMessages st.preServerSingleMessagePackets (p.1, p.2) }
          rest := by
      rw [runSingles, runSingles, List.foldl_cons,
        queuePendingPacketToNodes_step st p.1 p.2 hcap hp]
    have h2 := ih
      { st with preServerSingleMessagePackets :=
          fifoPush st.maxPendingMessages st.preServerSingleMessagePackets (p.1, p.2) }
      hcap hp
    rw [h1, h2, List.foldl_cons]

theorem foldl_qptnodes (env : Env) (bytes octCode : List Nat) :
    ∀ (nodes : List NodeInfo) (s : SenderState),
      List.foldl
        (fun s n =>
          if n.activeSocket && n.nodeType == env.myNodeType then
            let within :=
              match env.serverJurisdictions with
              | none => false
              | some m =>
                match m.lookup n.uuid with
                | some jmap => jmap octCode
                | none => false
            if within then queuePacketToNode env s n.uuid bytes else s
          else s)
        s nodes =
      { s with sent := s.sent ++ queuePacketToNodesSendsAux env octCode bytes nodes } := by
  intro nodes
  induction nodes with
  | nil => intro s; simp [queuePacketToNodesSendsAux]
  | cons n rest ih =>
    intro s
    simp only [List.foldl_cons]
    by_cases hA : (n.activeSocket && n.nodeType == env.myNodeType) = true
    · rw [if_pos hA]
      by_cases hW : (match env.serverJurisdictions with
          | none => false
          | some m =>
            match m.lookup n.uuid with
            | some jmap => jmap octCode
            | none => false) = true
      · rw [if_pos hW, ih (queuePacketToNode env s n.uuid bytes)]
        simp [queuePacketToNodesSendsAux, hA, hW, queuePacketToNode, List.append_assoc]
      · rw [if_neg hW, ih s]
        simp only [Bool.not_eq_true] at hW
        simp [queuePacketToNodesSendsAux, hA, hW]
    · rw [if_neg hA, ih s]
      simp [queuePacketToNodesSendsAux, hA]

theorem queuePacketToNodes_eq (env : Env) (s : SenderState) (bytes : List Nat)
    (hsend : s.shouldSend = true) :
    queuePacketToNodes env s bytes =
      { s with sent := s.sent ++ queuePacketToNodesSends env bytes } := by
  rw [queuePacketToNodes, if_neg (by simp [hsend])]
  exact foldl_qptnodes env bytes (bytes.drop (env.headerBytesOf bytes + 10)) env.nodes s

theorem foldl_singles (env : Env) :
    ∀ (l : List (Nat × List Nat)) (s : SenderState), s.shouldSend = true →
      List.foldl (fun s p => queuePacketToNodes env s p.2) s l =
        { s with sent := s.sent ++ singlesSends env l } := by
  intro l
  induction l with
  | nil => intro s _; simp [singlesSends]
  | cons p rest ih =>
    intro s hsend
    rw [List.foldl_cons, queuePacketToNodes_eq env s p.2 hsend]
    have h2 := ih { s with sent := s.sent ++ queuePacketToNodesSends env p.2 } hsend
    rw [h2]
    simp [singlesSends, List.append_assoc]

theorem drainPhase_order (env : Env) (st : SenderState) (hsend : st.shouldSend = true) :
    drainPhase env st =
      List.foldl (fun s p => queueOctreeEditMessage env s p.1 p.2)
        { st with
            preServerSingleMessagePackets := [],
            preServerPackets := [],
            sent := st.sent ++ singlesSends env st.preServerSingleMessagePackets }
        st.preServerPackets := by
  rw [drainPhase,
    foldl_singles env st.preServerSingleMessagePackets
      { st with preServerSingleMessagePackets := [] } hsend]

/-- C3 (amended).  While no jurisdiction is known: (i) for N edits all
submitted through the packable path (`queueOctreeEditMessage`) with pending
capacity C, each overflow drops that queue's oldest entry and the retained
queue is the most-recent `min N C` edits in original relative order, the
single-message queue staying empty; (ii) symmetrically for N packets all
submitted through the single-message path (`queuePendingPacketToNodes`);
(iii) on draining, all retained single-message packets are dispatched first,
in queue order (their transport hand-offs are `singlesSends`, appended
before anything the replay emits), and the retained packable records are
then replayed through the normal batching path in original order.  When the
two bootstrap queues are mixed, an overflow instead drops the oldest entry
of the newly appended edit's own queue, which need not be the globally
oldest pending entry. -/
theorem bootstrap_fifo_bound (env : Env) :
    (∀ (st : SenderState) (edits : List (Nat × EditRecord)),
      serversExist env = false → st.shouldSend = true → 0 < st.maxPendingMessages →
      st.preServerSingleMessagePackets = [] → st.preServerPackets = [] →
      (runEdits env st edits).preServerPackets =
        edits.drop (edits.length - st.maxPendingMessages) ∧
      (runEdits env st edits).preServerSingleMessagePackets = []) ∧
    (∀ (st : SenderState) (pkts : List (Nat × List Nat)),
      0 < st.maxPendingMessages →
      st.preServerSingleMessagePackets = [] → st.preServerPackets = [] →
      (runSingles st pkts).preServerSingleMessagePackets =
        pkts.drop (pkts.length - st.maxPendingMessages) ∧
      (runSingles st pkts).preServerPackets = []) ∧
    (∀ st : SenderState, st.shouldSend = true →
      drainPhase env st =
        List.foldl (fun s p => queueOctreeEditMessage env s p.1 p.2)
          { st with
              preServerSingleMessagePackets := [],
              preServerPackets := [],
              sent := st.sent ++ singlesSends env st.preServerSingleMessagePackets }
          st.preServerPackets) := by
  refine ⟨fun st edits hex hsend hcap hs hp => ?_,
    fun st pkts hcap hs hp => ?_, fun st hsend => drainPhase_order env st hsend⟩
  · rw [runEdits_bootstrap env hex edits st hsend hcap hs]
    constructor
    · simp only [hp]
      rw [foldl_fifoPush st.maxPendingMessages hcap edits [] (by simp)]
      simp
    · exact hs
  · rw [runSingles_bootstrap pkts st hcap hp]
    constructor
    · simp only [hs]
      rw [foldl_fifoPush st.maxPendingMessages hcap pkts [] (by simp)]
      simp
    · exact hp

/-- Witness for C3 (amended): three packable edits at capacity 2 retain the
last two; three single-message packets at capacity 2 retain the last two;
and a drain dispatches the saved single-message packet before replaying the
packable record. -/
theorem bootstrap_fifo_bound_witness :
    (runEdits cxEnvEmpty (mkInitialState 1000 2)
        [(3, cxRecord), (4, cxRecord), (5, cxRecord)]).preServerPackets =
      [(4, cxRecord), (5, cxRecord)] ∧
    (runEdits cxEnvEmpty (mkInitialState 1000 2)
        [(3, cxRecord), (4, cxRecord), (5, cxRecord)]).preServerSingleMessagePackets = [] ∧
    (runSingles (mkInitialState 1000 2)
        [(6, [1]), (7, [2]), (8, [3])]).preServerSingleMessagePackets =
      [(7, [2]), (8, [3])] ∧
    (runSingles (mkInitialState 1000 2) [(6, [1]), (7, [2]), (8, [3])]).preServerPackets =
      [] ∧
    drainPhase cxEnvOneNode
        { mkInitialState 1000 10 with
            preServerSingleMessagePackets := [(9, [9, 9])],
            preServerPackets := [(3, cxRecord)] } =
      List.foldl (fun s p => queueOctreeEditMessage cxEnvOneNode s p.1 p.2)
        { mkInitialState 1000 10 with
            preServerSingleMessagePackets := [],
            preServerPackets := [],
            sent := [] ++ singlesSends cxEnvOneNode [(9, [9, 9])] }
        [(3, cxRecord)] := by
  have h1 := (bootstrap_fifo_bound cxEnvEmpty).1 (mkInitialState 1000 2)
    [(3, cxRecord), (4, cxRecord), (5, cxRecord)] (by decide) rfl (by decide) rfl rfl
  have h2 := (bootstrap_fifo_bound cxEnvEmpty).2.1 (mkInitialState 1000 2)
    [(6, [1]), (7, [2]), (8, [3])] (by decide) rfl rfl
  have h3 := (bootstrap_fifo_bound cxEnvOneNode).2.2
    { mkInitialState 1000 10 with
        preServerSingleMessagePackets := [(9, [9, 9])],
        preServerPackets := [(3, cxRecord)] } rfl
  exact ⟨by rw [h1.1]; decide, h1.2, by rw [h2.1]; decide, h2.2, h3⟩

/-! ## C5: clock-skew correction compounds across destinations -/

/-- C5 (code bug).  Dispatching one record to two in-jurisdiction destinations
with clock skews 10 and 100: the loop adjusts the shared record in place, so
the copy appended to destination 2's buffer carries timestamp
1000+10+100 = 1110 — the first destination's offset leaks in — instead of
the claimed 1000+100 = 1100 rewritten by exactly its own offset. -/
theorem clock_skew_compounds :
    (queueOctreeEditMessage cxEnvTwoNodes (mkInitialState 1000 10) 3
        cxRecord).pendingEditPackets.lookup 2 =
      some ⟨2, 3, cxHeaderFor 3 ++ natToBytesLE 2 1 ++ natToBytesLE 8 42 ++
        encodeRecord (adjustEditPacketForClockSkew
          (adjustEditPacketForClockSkew cxRecord 10) 100)⟩ ∧
    (adjustEditPacketForClockSkew (adjustEditPacketForClockSkew cxRecord 10) 100).timestamp =
      1110 ∧
    (adjustEditPacketForClockSkew cxRecord 100).timestamp = 1100 ∧
    encodeRecord (adjustEditPacketForClockSkew (adjustEditPacketForClockSkew cxRecord 10) 100) ≠
      encodeRecord (adjustEditPacketForClockSkew cxRecord 100) := by
  refine ⟨by decide, by decide, by decide, by decide⟩

/-! ## C6: the latched release request -/

theorem foldl_preserves {σ α β : Type} (f : σ → α → σ) (P : σ → β)
    (hf : ∀ s a, P (f s a) = P s) :
    ∀ (l : List α) (s : σ), P (List.foldl f s l) = P s := by
  intro l
  induction l with
  | nil => intro s; rfl
  | cons a rest ih => intro s; rw [List.foldl_cons, ih, hf]

theorem queueEditToNode_pending (env : Env) (t : Nat) (acc : SenderState × EditRecord)
    (n : NodeInfo) :
    (queueEditToNode env t acc n).1.releaseQueuedMessagesPending =
      acc.1.releaseQueuedMessagesPending := by
  simp only [queueEditToNode]
  split
  · split
    · split <;> split <;>
        simp [initializePacket, releaseQueuedPacket, queuePacketToNode] <;>
        split <;> rfl
    · rfl
  · rfl

theorem queueOctreeEditMessage_pending (env : Env) (st : SenderState) (t : Nat)
    (r : EditRecord) :
    (queueOctreeEditMessage env st t r).releaseQueuedMessagesPending =
      st.releaseQueuedMessagesPending := by
  rw [queueOctreeEditMessage]
  split
  · rfl
  · split
    · split
      · dsimp only
        split <;> rfl
      · rfl
    · exact foldl_preserves (queueEditToNode env t)
        (fun acc => acc.1.releaseQueuedMessagesPending)
        (queueEditToNode_pending env t) env.nodes (st, r)

theorem queuePacketToNodes_pending (env : Env) (st : SenderState) (bytes : List Nat) :
    (queuePacketToNodes env st bytes).releaseQueuedMessagesPending =
      st.releaseQueuedMessagesPending := by
  rw [queuePacketToNodes]
  split
  · rfl
  · refine foldl_preserves _ (fun s => s.releaseQueuedMessagesPending) ?_ env.nodes st
    intro s n
    dsimp only
    split
    · split <;> rfl
    · rfl

theorem drainPhase_pending (env : Env) (st : SenderState) :
    (drainPhase env st).releaseQueuedMessagesPending = st.releaseQueuedMessagesPending := by
  have h2 := foldl_preserves
    (fun (s : SenderState) (p : Nat × EditRecord) => queueOctreeEditMessage env s p.1 p.2)
    (fun s => s.releaseQueuedMessagesPending)
    (fun s p => queueOctreeEditMessage_pending env s p.1 p.2)
  have h1 := foldl_preserves
    (fun (s : SenderState) (p : Nat × List Nat) => queuePacketToNodes env s p.2)
    (fun s => s.releaseQueuedMessagesPending)
    (fun s p => queuePacketToNodes_pending env s p.2)
  rw [drainPhase]
  simp only [h2, h1]

theorem flushBuffers_eq (env : Env) :
    ∀ (l : List (Nat × EditPacketBuffer)) (st : SenderState),
      flushBuffers env st l =
        ({ st with sent := st.sent ++ flushSends env l },
         l.map (fun e => (e.1, { e.2 with currentBuffer := [], currentType := 0 }))) := by
  intro l
  induction l with
  | nil => intro st; simp [flushBuffers, flushSends]
  | cons e rest ih =>
    intro st
    rw [flushBuffers]
    by_cases hc : 0 < e.2.currentBuffer.length ∧ e.2.currentType ≠ 0
    · simp only [releaseQueuedPacket, if_pos hc, queuePacketToNode, ih, flushSends,
        List.map_cons, List.append_assoc]
    · simp only [releaseQueuedPacket, if_neg hc, ih, flushSends, List.map_cons,
        List.nil_append, List.append_nil]

theorem releaseQueuedMessages_active (env : Env) (st : SenderState)
    (hex : serversExist env = true) :
    releaseQueuedMessages env st =
      { st with
          sent := st.sent ++ flushSends env st.pendingEditPackets,
          pendingEditPackets := st.pendingEditPackets.map
            (fun e => (e.1, { e.2 with currentBuffer := [], currentType := 0 })) } := by
  rw [releaseQueuedMessages, flushBuffers_eq]
  simp [hex]

/-- Counterexample to C6 as stated: `releaseQueuedMessages` during bootstrap
latches the request, but at the transition to the Active phase with both
pre-server queues empty, `process` skips `processPreServerExistsPackets`
entirely: the latch stays set, no per-destination buffer is flushed, and
nothing reaches the transport — the latched release is not executed at the
transition. -/
theorem release_latch_dropped_cx :
    (releaseQueuedMessages cxEnvEmpty cxStWithBuffer).releaseQueuedMessagesPending = true ∧
    (releaseQueuedMessages cxEnvEmpty cxStWithBuffer).sent = [] ∧
    serversExist cxEnvOneNode = true ∧
    (process cxEnvOneNode
        (releaseQueuedMessages cxEnvEmpty cxStWithBuffer)).releaseQueuedMessagesPending =
      true ∧
    (process cxEnvOneNode (releaseQueuedMessages cxEnvEmpty cxStWithBuffer)).sent = [] ∧
    (process cxEnvOneNode
        (releaseQueuedMessages cxEnvEmpty cxStWithBuffer)).pendingEditPackets =
      [(5, ⟨5, 3, [1, 2, 3]⟩)] := by
  refine ⟨rfl, rfl, by decide, rfl, rfl, rfl⟩

/-- C6 (amended).  If a release was latched while bootstrapping, then at the
transition to the Active phase — provided at least one pre-server packet is
pending, since only the drain triggers the latch — `process` drains the FIFO
and then executes the latched release: every per-destination buffer is
flushed (each non-empty typed buffer's bytes are handed to the transport, as
`flushSends` lists) and reset, and the latch is cleared.  With an empty
pending FIFO at the transition the latch is not acted upon. -/
theorem release_latch_honored (env : Env) (st : SenderState)
    (hpend : st.releaseQueuedMessagesPending = true)
    (hex : serversExist env = true)
    (hq : st.preServerPackets ≠ [] ∨ st.preServerSingleMessagePackets ≠ []) :
    (process env st).releaseQueuedMessagesPending = false ∧
    (∀ e ∈ (process env st).pendingEditPackets,
        (e : Nat × EditPacketBuffer).2.currentBuffer = [] ∧ e.2.currentType = 0) ∧
    (process env st).sent =
      (drainPhase env st).sent ++ flushSends env (drainPhase env st).pendingEditPackets := by
  have hguard : (serversExist env &&
      !(st.preServerPackets.isEmpty && st.preServerSingleMessagePackets.isEmpty)) = true := by
    rcases hq with h | h <;> simp [hex, h]
  have hdp : (drainPhase env st).releaseQueuedMessagesPending = true := by
    rw [drainPhase_pending, hpend]
  rw [process, if_pos hguard, processPreServerExistsPackets, if_pos hdp,
    releaseQueuedMessages_active env _ hex]
  refine ⟨rfl, ?_, rfl⟩
  intro e he
  simp only [List.mem_map] at he
  obtain ⟨x, -, hx⟩ := he
  rw [← hx]
  exact ⟨rfl, rfl⟩

/-- Witness for C6 (amended): a latched release plus one pending packable edit;
at the transition the latch is cleared and the sends are the drain's sends
followed by the flush of every buffer. -/
theorem release_latch_honored_witness :
    (process cxEnvOneNode
        { mkInitialState 1000 10 with
            releaseQueuedMessagesPending := true,
            preServerPackets := [(3, cxRecord)] }).releaseQueuedMessagesPending = false ∧
    (process cxEnvOneNode
        { mkInitialState 1000 10 with
            releaseQueuedMessagesPending := true,
            preServerPackets := [(3, cxRecord)] }).sent =
      (drainPhase cxEnvOneNode
        { mkInitialState 1000 10 with
            releaseQueuedMessagesPending := true,
            preServerPackets := [(3, cxRecord)] }).sent ++
      flushSends cxEnvOneNode
        (drainPhase cxEnvOneNode
          { mkInitialState 1000 10 with
              releaseQueuedMessagesPending := true,
              preServerPackets := [(3, cxRecord)] }).pendingEditPackets := by
  have h := release_latch_honored cxEnvOneNode
    { mkInitialState 1000 10 with
        releaseQueuedMessagesPending := true,
        preServerPackets := [(3, cxRecord)] }
    rfl (by decide) (Or.inl (by decide))
  exact ⟨h.1, h.2.2⟩

/-! ## C4: batch boundaries and flush sizes -/

theorem sends_snd (env : Env) (u : Nat) (b : List Nat) :
    ∀ p ∈ queuePacketToNodeSends env u b, (p : Nat × List Nat).2 = b := by
  intro p hp
  obtain ⟨n, -, hn⟩ := List.mem_filterMap.mp hp
  split at hn
  · cases hn
    rfl
  · exact absurd hn (by simp)

theorem sentBounded_qptn (S : Nat) (env : Env) (st : SenderState) (u : Nat) (b : List Nat)
    (hsent : sentBounded S st) (hb : b.length ≤ S) :
    sentBounded S (queuePacketToNode env st u b) := by
  intro p hp
  rw [queuePacketToNode] at hp
  rcases List.mem_append.mp hp with h | h
  · exact hsent p h
  · rw [sends_snd env u b p h]
    exact hb

theorem sentBounded_release (S : Nat) (env : Env) (st : SenderState) (pb : EditPacketBuffer)
    (hsent : sentBounded S st) (hpb : pb.currentBuffer.length ≤ S) :
    sentBounded S (releaseQueuedPacket env st pb).1 := by
  show sentBounded S (if _ then _ else _)
  split
  · exact sentBounded_qptn S env st pb.nodeUUID pb.currentBuffer hsent hpb
  · exact hsent

theorem releaseQueuedPacket_map (env : Env) (st : SenderState) (pb : EditPacketBuffer) :
    (releaseQueuedPacket env st pb).1.pendingEditPackets = st.pendingEditPackets := by
  show (if _ then _ else _ : SenderState).pendingEditPackets = _
  split <;> rfl

theorem releaseQueuedPacket_mps (env : Env) (st : SenderState) (pb : EditPacketBuffer) :
    (releaseQueuedPacket env st pb).1.maxPacketSize = st.maxPacketSize := by
  show (if _ then _ else _ : SenderState).maxPacketSize = _
  split <;> rfl

theorem encLen_skewed (r : EditRecord) (k : Int) :
    encLen (if k ≠ 0 then adjustEditPacketForClockSkew r k else r) = encLen r := by
  split
  · exact encLen_adjust r k
  · rfl

theorem encLen_skewed0 (r : EditRecord) (k : Int) :
    encLen (if k = 0 then r else adjustEditPacketForClockSkew r k) = encLen r := by
  split
  · rfl
  · exact encLen_adjust r k

theorem queueEditToNode_bounded (env : Env) (ptype : Nat) (n : NodeInfo) (S : Nat)
    (acc : SenderState × EditRecord)
    (hS : acc.1.maxPacketSize = S)
    (hsent : sentBounded S acc.1) (hbuf : buffersBounded S acc.1)
    (hfit : (env.headerFor ptype).length + 10 + encLen acc.2 ≤ S) :
    (queueEditToNode env ptype acc n).1.maxPacketSize = S ∧
    sentBounded S (queueEditToNode env ptype acc n).1 ∧
    buffersBounded S (queueEditToNode env ptype acc n).1 ∧
    encLen (queueEditToNode env ptype acc n).2 = encLen acc.2 := by
  obtain ⟨st, rec0⟩ := acc
  simp only at hS hsent hbuf hfit
  have hP1 : ((st.pendingEditPackets.lookup n.uuid).getD
      defaultEditPacketBuffer).currentBuffer.length ≤ S := by
    cases hlk : st.pendingEditPackets.lookup n.uuid with
    | none => simp [defaultEditPacketBuffer]
    | some pb => simpa using hbuf _ (lookup_mem hlk)
  rw [queueEditToNode]
  split
  · split
    · dsimp only
      split
      · -- flush-and-initialize branch
        split
        · -- second initialize: impossible, the buffer already has type ptype
          rename_i h3
          exact absurd rfl h3.1
        · -- append after flush+init
          refine ⟨(releaseQueuedPacket_mps env st _).trans hS,
            sentBounded_release S env st _ hsent (by simpa using hP1), ?_,
            encLen_skewed rec0 n.clockSkewUsec⟩
          intro e he
          have hmap : (initializePacket env.headerFor env.now
              (releaseQueuedPacket env st
                { (st.pendingEditPackets.lookup n.uuid).getD defaultEditPacketBuffer with
                    nodeUUID := n.uuid }).1
              (releaseQueuedPacket env st
                { (st.pendingEditPackets.lookup n.uuid).getD defaultEditPacketBuffer with
                    nodeUUID := n.uuid }).2
              ptype).1.pendingEditPackets = st.pendingEditPackets :=
            releaseQueuedPacket_map env st _
          rw [hmap] at he
          rcases mem_assocSet he with h | h
          · rw [h]
            simp [initializePacket, releaseQueuedPacket, encodeRecord_length,
              natToBytesLE_length, encLen_skewed, encLen_skewed0]
            omega
          · exact hbuf e h
      · -- no flush
        split
        · -- empty buffer of a different type: initialize then append
          refine ⟨hS, hsent, ?_, encLen_skewed rec0 n.clockSkewUsec⟩
          intro e he
          rcases mem_assocSet he with h | h
          · rw [h]
            simp [initializePacket, encodeRecord_length, natToBytesLE_length,
              encLen_skewed, encLen_skewed0]
            omega
          · exact hbuf e h
        · -- plain append
          rename_i hc2 hc3
          refine ⟨hS, hsent, ?_, encLen_skewed rec0 n.clockSkewUsec⟩
          intro e he
          rcases mem_assocSet he with h | h
          · rw [h]
            simp only [not_or, not_le] at hc2
            simp [encodeRecord_length, natToBytesLE_length, encLen_skewed, encLen_skewed0]
            omega
          · exact hbuf e h
    · exact ⟨hS, hsent, hbuf, rfl⟩
  · exact ⟨hS, hsent, hbuf, rfl⟩

theorem foldl_qetn_bounded (env : Env) (ptype : Nat) (S : Nat) :
    ∀ (nodes : List NodeInfo) (acc : SenderState × EditRecord),
      acc.1.maxPacketSize = S → sentBounded S acc.1 → buffersBounded S acc.1 →
      (env.headerFor ptype).length + 10 + encLen acc.2 ≤ S →
      (List.foldl (queueEditToNode env ptype) acc nodes).1.maxPacketSize = S ∧
      sentBounded S (List.foldl (queueEditToNode env ptype) acc nodes).1 ∧
      buffersBounded S (List.foldl (queueEditToNode env ptype) acc nodes).1 := by
  intro nodes
  induction nodes with
  | nil => intro acc h1 h2 h3 _; exact ⟨h1, h2, h3⟩
  | cons n rest ih =>
    intro acc h1 h2 h3 h4
    rw [List.foldl_cons]
    have h := queueEditToNode_bounded env ptype n S acc h1 h2 h3 h4
    exact ih (queueEditToNode env ptype acc n) h.1 h.2.1 h.2.2.1
      (by rw [h.2.2.2]; exact h4)

theorem queueOctreeEditMessage_bounded (env : Env) (S : Nat) (st : SenderState)
    (ptype : Nat) (r : EditRecord)
    (hS : st.maxPacketSize = S) (hsent : sentBounded S st) (hbuf : buffersBounded S st)
    (hfit : (env.headerFor ptype).length + 10 + encLen r ≤ S) :
    (queueOctreeEditMessage env st ptype r).maxPacketSize = S ∧
    sentBounded S (queueOctreeEditMessage env st ptype r) ∧
    buffersBounded S (queueOctreeEditMessage env st ptype r) := by
  rw [queueOctreeEditMessage]
  split
  · exact ⟨hS, hsent, hbuf⟩
  · split
    · split
      · dsimp only
        split
        · exact ⟨hS, hsent, hbuf⟩
        · exact ⟨hS, hsent, hbuf⟩
      · exact ⟨hS, hsent, hbuf⟩
    · exact foldl_qetn_bounded env ptype S env.nodes (st, r) hS hsent hbuf hfit

theorem runEdits_bounded (env : Env) (S : Nat) :
    ∀ (edits : List (Nat × EditRecord)) (st : SenderState),
      st.maxPacketSize = S → sentBounded S st → buffersBounded S st →
      (∀ e ∈ edits, editFits env S e) →
      (runEdits env st edits).maxPacketSize = S ∧
      sentBounded S (runEdits env st edits) ∧
      buffersBounded S (runEdits env st edits) := by
  intro edits
  induction edits with
  | nil => intro st h1 h2 h3 _; exact ⟨h1, h2, h3⟩
  | cons e rest ih =>
    intro st h1 h2 h3 hfits
    have hstep : runEdits env st (e :: rest) =
        runEdits env (queueOctreeEditMessage env st e.1 e.2) rest := by
      rw [runEdits, runEdits, List.foldl_cons]
    have h := queueOctreeEditMessage_bounded env S st e.1 e.2 h1 h2 h3
      (hfits e (by simp)).1
    rw [hstep]
    exact ih _ h.1 h.2.1 h.2.2 (fun x hx => hfits x (by simp [hx]))

theorem single_call_flush (env : Env) (n : NodeInfo) (st : SenderState) (ptype : Nat)
    (r : EditRecord) (pb : EditPacketBuffer)
    (henv : env.nodes = [n]) (hact : n.activeSocket = true)
    (htyp : n.nodeType = env.myNodeType)
    (hsend : st.shouldSend = true) (hex : serversExist env = true)
    (hpb : st.pendingEditPackets.lookup n.uuid = some pb)
    (hjur : isMyJurisdiction env n.uuid (encodeRecord r) = true)
    (hne : pb.currentBuffer ≠ []) (htyp0 : pb.currentType ≠ 0)
    (hflush : ptype ≠ pb.currentType ∨ st.maxPacketSize < pb.currentBuffer.length + encLen r) :
    (queueOctreeEditMessage env st ptype r).sent =
      st.sent ++ queuePacketToNodeSends env n.uuid pb.currentBuffer ∧
    (queueOctreeEditMessage env st ptype r).pendingEditPackets =
      assocSet st.pendingEditPackets n.uuid
        ⟨n.uuid, ptype,
          env.headerFor ptype ++ natToBytesLE 2 st.sequenceNumber ++ natToBytesLE 8 env.now ++
            encodeRecord (if n.clockSkewUsec ≠ 0
              then adjustEditPacketForClockSkew r n.clockSkewUsec else r)⟩ ∧
    (queueOctreeEditMessage env st ptype r).sequenceNumber = st.sequenceNumber + 1 := by
  have hc2 : (ptype ≠ pb.currentType ∧ 0 < pb.currentBuffer.length) ∨
      st.maxPacketSize ≤ pb.currentBuffer.length + encLen r := by
    rcases hflush with h | h
    · exact Or.inl ⟨h, List.length_pos.mpr hne⟩
    · exact Or.inr (le_of_lt h)
  have hrel : 0 < pb.currentBuffer.length ∧ pb.currentType ≠ 0 :=
    ⟨List.length_pos.mpr hne, htyp0⟩
  rw [queueOctreeEditMessage, if_neg (by simp [hsend]), if_neg (by simp [hex]), henv,
    List.foldl_cons, List.foldl_nil, queueEditToNode,
    if_pos (show (n.activeSocket && n.nodeType == env.myNodeType) = true by
      simp [hact, htyp])]
  dsimp only
  rw [if_pos hjur, hpb]
  dsimp only [Option.getD_some]
  rw [if_pos hc2, releaseQueuedPacket, if_pos hrel]
  rw [if_neg (fun h => h.1 rfl)]
  exact ⟨rfl, rfl, rfl⟩

/-- Counterexample to C4 as stated: nothing bounds a single record by the
maximum packet size.  With max packet size 20, a 25-byte record is appended
after a fresh 11-byte header; the next append flushes that 36-byte buffer,
handing the transport a packet larger than the maximum. -/
theorem flush_oversize_cx :
    ((runEdits cxEnvOneNode (mkInitialState 20 10)
        [(3, cxBigRecord), (3, cxRecord)]).sent.map
          (fun p => (p : Nat × List Nat).2.length)) = [36] ∧
    (mkInitialState 20 10).maxPacketSize = 20 ∧ ¬(36 ≤ 20) := by
  refine ⟨by decide, rfl, by decide⟩

/-- C4 (amended).  (a) Starting from a fresh sender, if every appended record
fits a packet — header bytes plus 10 bytes of sequence/timestamp plus the
record's length at most the maximum packet size S — then every packet handed
to the transport is at most S bytes.  (b) For an append of a record of type
T to a destination whose buffer is non-empty with a different current type,
or which the record would overrun (the source also flushes when the size
exactly reaches S), exactly one flush of the existing buffer bytes happens
before any byte of the record is appended, and the buffer is re-initialized
with a fresh header for T followed by the (possibly skew-adjusted) record
bytes. -/
theorem batch_flush_spec (env : Env) :
    (∀ (S C : Nat) (edits : List (Nat × EditRecord)),
      (∀ e ∈ edits, editFits env S e) →
      ∀ p ∈ (runEdits env (mkInitialState S C) edits).sent,
        (p : Nat × List Nat).2.length ≤ S) ∧
    (∀ (n : NodeInfo) (st : SenderState) (ptype : Nat) (r : EditRecord)
        (pb : EditPacketBuffer),
      env.nodes = [n] → n.activeSocket = true → n.nodeType = env.myNodeType →
      st.shouldSend = true → serversExist env = true →
      st.pendingEditPackets.lookup n.uuid = some pb →
      isMyJurisdiction env n.uuid (encodeRecord r) = true →
      pb.currentBuffer ≠ [] → pb.currentType ≠ 0 →
      (ptype ≠ pb.currentType ∨
        st.maxPacketSize < pb.currentBuffer.length + encLen r) →
      (queueOctreeEditMessage env st ptype r).sent =
        st.sent ++ queuePacketToNodeSends env n.uuid pb.currentBuffer ∧
      (queueOctreeEditMessage env st ptype r).pendingEditPackets =
        assocSet st.pendingEditPackets n.uuid
          ⟨n.uuid, ptype,
            env.headerFor ptype ++ natToBytesLE 2 st.sequenceNumber ++
              natToBytesLE 8 env.now ++
              encodeRecord (if n.clockSkewUsec ≠ 0
                then adjustEditPacketForClockSkew r n.clockSkewUsec else r)⟩ ∧
      (queueOctreeEditMessage env st ptype r).sequenceNumber = st.sequenceNumber + 1) := by
  constructor
  · intro S C edits hfits
    exact (runEdits_bounded env S edits (mkInitialState S C) rfl
      (fun p hp => absurd hp (by simp [mkInitialState]))
      (fun e he => absurd he (by simp [mkInitialState])) hfits).2.1
  · intro n st ptype r pb henv hact htyp hsend hex hpb hjur hne htyp0 hflush
    exact single_call_flush env n st ptype r pb henv hact htyp hsend hex hpb hjur hne
      htyp0 hflush

/-- Witness for C4 (amended) at concrete inputs. -/
theorem batch_flush_spec_witness :
    (∀ p ∈ (runEdits cxEnvOneNode (mkInitialState 1000 10)
        [(3, cxRecord), (4, cxRecord)]).sent,
      (p : Nat × List Nat).2.length ≤ 1000) ∧
    (queueOctreeEditMessage cxEnvOneNode cxStWithBuffer 4 cxRecord).sent =
      cxStWithBuffer.sent ++ queuePacketToNodeSends cxEnvOneNode 5 [1, 2, 3] ∧
    (queueOctreeEditMessage cxEnvOneNode cxStWithBuffer 4 cxRecord).sequenceNumber =
      cxStWithBuffer.sequenceNumber + 1 := by
  have ha := (batch_flush_spec cxEnvOneNode).1 1000 10 [(3, cxRecord), (4, cxRecord)]
    (by decide)
  have hb := (batch_flush_spec cxEnvOneNode).2 ⟨5, 7, true, 0⟩ cxStWithBuffer 4 cxRecord
    ⟨5, 3, [1, 2, 3]⟩ rfl rfl rfl rfl (by decide) rfl (by decide) (by decide) (by decide)
    (Or.inl (by decide))
  exact ⟨ha, hb.1, hb.2.2⟩
